import Mathlib

/-!
Verification of the omniread content-processing and audio-synthesis pipeline.

The definitions below are a shallow embedding of the TypeScript source:
  * `src/services/geminiService.ts` — `processContent`, `generateSpeech`,
    `pcmToWav`, `handleGeminiError`, the language-code derivation and the
    code-fence stripping (global replacement of both fence markers by the
    empty string, then trim);
  * the application root (`App.tsx`) — `handleProcess`, the history
    persistence that drops `audioUrl`;
  * `types.ts` — `Language`, `Tone`, `Mode`, `ReadingConfig`,
    `ProcessedArticle`.

Strings are modelled as Lean `String` / `List Char` (JS UTF-16 units map to
code points for all text involved).  The JavaScript `String.prototype.replace`
method with a global literal pattern and empty replacement is modelled by
`removeAll` (leftmost, non-overlapping, no rescanning of the output).
`JSON.parse` is modelled by an executable recursive-descent JSON parser
(`jsonParse`); JS `undefined` for an absent object property is modelled by
`Option`.  The network and the external AI capability are oracles passed as
function arguments; machine-integer byte writes (`DataView.setUint16/32`,
little-endian) are modelled with explicit `% 256` digit decomposition.
`atob` (base64 decoding, a platform builtin) is elided: the speech oracle
yields the decoded PCM bytes directly.  `URL.createObjectURL` is elided: the
audio handle is represented by the encoded WAV bytes themselves.
-/

namespace OmniRead

/-- Whitespace as trimmed by JS `String.prototype.trim` (main characters). -/
def jsWhitespace (c : Char) : Bool :=
  c = ' ' || c = '\t' || c = '\n' || c = '\r' || c = '\x0b' || c = '\x0c'

/-- Left part of JS `trim`. -/
def ltrim (l : List Char) : List Char := l.dropWhile jsWhitespace

/-- Right part of JS `trim`. -/
def rtrim (l : List Char) : List Char := (l.reverse.dropWhile jsWhitespace).reverse

/-- JS `String.prototype.trim`. -/
def jsTrim (l : List Char) : List Char := rtrim (ltrim l)

/-- Fueled worker for `removeAll`.  The fuel is only a structural-recursion
device; `removeAll` always supplies enough fuel (one unit per character). -/
def removeAllF (pat : List Char) : Nat → List Char → List Char
  | _, [] => []
  | 0, s => s
  | n+1, a :: rest =>
    if pat.isPrefixOf (a :: rest) then
      removeAllF pat n (rest.drop (pat.length - 1))
    else
      a :: removeAllF pat n rest

/-- JS replace with a global literal pattern and empty replacement: delete
every leftmost, non-overlapping occurrence of `pat`, scanning the original
string once. -/
def removeAll (pat s : List Char) : List Char := removeAllF pat s.length s

/-- The characters of the opening fence marker with json tag. -/
def fenceJson : List Char := "```json".data

/-- The characters of a bare triple-backtick fence marker. -/
def fenceTick : List Char := "```".data

/-- Line 146 of geminiService.ts: globally replace the json fence marker,
then the bare fence marker, each with the empty string, then trim — the
retrieval-mode fence-stripping normalizer. -/
def stripFences (l : List Char) : List Char :=
  jsTrim (removeAll fenceTick (removeAll fenceJson l))

/-- Whether `pat` occurs as a contiguous subsequence (JS `String.prototype.includes`). -/
def hasSeq (pat : List Char) : List Char → Bool
  | [] => pat.isEmpty
  | a :: rest => pat.isPrefixOf (a :: rest) || hasSeq pat rest

/-- JS `s.includes(sub)`. -/
def jsIncludes (s sub : String) : Bool := hasSeq sub.data s.data

/-! ## JSON values and `JSON.parse` -/

/-- JSON values as produced by `JSON.parse`.  Numbers keep their source
lexeme (no claim under verification depends on numeric semantics). -/
inductive Json where
  | null
  | bool (b : Bool)
  | num (lex : String)
  | str (s : String)
  | arr (elems : List Json)
  | obj (fields : List (String × Json))

/-- JSON whitespace (exactly the four characters of the JSON grammar). -/
def jsonWs (c : Char) : Bool :=
  c = ' ' || c = '\t' || c = '\n' || c = '\r'

/-- Skip JSON whitespace. -/
def skipWs (l : List Char) : List Char := l.dropWhile jsonWs

/-- Decimal digit test (code points 48-57). -/
def isDigit (c : Char) : Bool := 48 ≤ c.toNat && c.toNat ≤ 57

/-- Lex the integer-part digits of a JSON number. -/
def lexDigits (l : List Char) : List Char × List Char :=
  (l.takeWhile isDigit, l.dropWhile isDigit)

/-- Lex a JSON number (sign, integer part, optional fraction and exponent),
returning its lexeme and the rest of the input. -/
def lexNumber (l : List Char) : Option (List Char × List Char) :=
  let (sign, l1) := match l with
    | '-' :: r => (['-'], r)
    | _ => ([], l)
  let (intPart, l2) := lexDigits l1
  if intPart.isEmpty then none else
  let (fracPart, l3) := match l2 with
    | '.' :: r =>
      let (d, r') := lexDigits r
      if d.isEmpty then ([], l2) else ('.' :: d, r')
    | _ => ([], l2)
  let (expPart, l4) := match l3 with
    | 'e' :: r =>
      let (s, r1) := match r with
        | '+' :: r' => (['+'], r')
        | '-' :: r' => (['-'], r')
        | _ => ([], r)
      let (d, r2) := lexDigits r1
      if d.isEmpty then ([], l3) else ('e' :: (s ++ d), r2)
    | 'E' :: r =>
      let (s, r1) := match r with
        | '+' :: r' => (['+'], r')
        | '-' :: r' => (['-'], r')
        | _ => ([], r)
      let (d, r2) := lexDigits r1
      if d.isEmpty then ([], l3) else ('E' :: (s ++ d), r2)
    | _ => ([], l3)
  some (sign ++ intPart ++ fracPart ++ expPart, l4)

/-- Value of a hexadecimal digit, if any (working on raw code points). -/
def hexVal (c : Char) : Option Nat :=
  let n := c.toNat
  if 48 ≤ n && n ≤ 57 then some (n - 48)
  else if 97 ≤ n && n ≤ 102 then some (n - 87)
  else if 65 ≤ n && n ≤ 70 then some (n - 55)
  else none

/-- Parse the body of a JSON string (the opening quote already consumed),
handling the JSON escape sequences. -/
def parseStringBody : Nat → List Char → Option (String × List Char)
  | 0, _ => none
  | n+1, s =>
    match s with
    | [] => none
    | '\"' :: rest => some ("", rest)
    | '\\' :: e :: rest =>
      let dec : Option (Char × List Char) :=
        match e with
        | '\"' => some ('\"', rest)
        | '\\' => some ('\\', rest)
        | '/' => some ('/', rest)
        | 'b' => some ('\x08', rest)
        | 'f' => some ('\x0c', rest)
        | 'n' => some ('\n', rest)
        | 'r' => some ('\r', rest)
        | 't' => some ('\t', rest)
        | 'u' =>
          match rest with
          | h1 :: h2 :: h3 :: h4 :: rest' =>
            match hexVal h1, hexVal h2, hexVal h3, hexVal h4 with
            | some a, some b, some c, some d =>
              some (Char.ofNat (4096 * a + 256 * b + 16 * c + d), rest')
            | _, _, _, _ => none
          | _ => none
        | _ => none
      match dec with
      | some (ch, rest') =>
        match parseStringBody n rest' with
        | some (out, r) => some (⟨ch :: out.data⟩, r)
        | none => none
      | none => none
    | c :: rest =>
      match parseStringBody n rest with
      | some (out, r) => some (⟨c :: out.data⟩, r)
      | none => none

mutual

/-- Parse one JSON value (fueled recursive descent). -/
def parseValue : Nat → List Char → Option (Json × List Char)
  | 0, _ => none
  | n+1, s =>
    match skipWs s with
    | [] => none
    | c :: rest =>
      if c = 'n' then
        if "ull".data.isPrefixOf rest then some (.null, rest.drop 3) else none
      else if c = 't' then
        if "rue".data.isPrefixOf rest then some (.bool true, rest.drop 3) else none
      else if c = 'f' then
        if "alse".data.isPrefixOf rest then some (.bool false, rest.drop 4) else none
      else if c = '\"' then
        match parseStringBody n rest with
        | some (str, rest') => some (.str str, rest')
        | none => none
      else if c = '[' then
        match skipWs rest with
        | ']' :: r2 => some (.arr [], r2)
        | s1 =>
          match parseElems n s1 with
          | some (elems, r2) => some (.arr elems, r2)
          | none => none
      else if c = '\x7b' then
        match skipWs rest with
        | '\x7d' :: r2 => some (.obj [], r2)
        | s1 =>
          match parseMembers n s1 with
          | some (mems, r2) => some (.obj mems, r2)
          | none => none
      else
        match lexNumber (c :: rest) with
        | some (lex, rest') => some (.num ⟨lex⟩, rest')
        | none => none

/-- Parse the elements of a non-empty JSON array (after the opening
bracket), up to and including the closing bracket. -/
def parseElems : Nat → List Char → Option (List Json × List Char)
  | 0, _ => none
  | n+1, s =>
    match parseValue n s with
    | none => none
    | some (v, r1) =>
      match skipWs r1 with
      | ',' :: r3 =>
        match parseElems n r3 with
        | some (vs, r4) => some (v :: vs, r4)
        | none => none
      | ']' :: r3 => some ([v], r3)
      | _ => none

/-- Parse the members of a non-empty JSON object (after the opening brace),
up to and including the closing brace. -/
def parseMembers : Nat → List Char → Option (List (String × Json) × List Char)
  | 0, _ => none
  | n+1, s =>
    match skipWs s with
    | '\"' :: r1 =>
      match parseStringBody n r1 with
      | none => none
      | some (key, r2) =>
        match skipWs r2 with
        | ':' :: r3 =>
          match parseValue n r3 with
          | none => none
          | some (v, r4) =>
            match skipWs r4 with
            | ',' :: r5 =>
              match parseMembers n r5 with
              | some (ms, r6) => some ((key, v) :: ms, r6)
              | none => none
            | '\x7d' :: r5 => some ([(key, v)], r5)
            | _ => none
        | _ => none
    | _ => none

end

/-- Model of `JSON.parse`: parse a complete JSON document (only whitespace may follow
the value).  The fuel `2 * length + 4` covers the recursion (each fuel unit
either consumes an input character or immediately descends into a value). -/
def jsonParse (s : String) : Option Json :=
  match parseValue (2 * s.length + 4) s.data with
  | some (j, rest) => if skipWs rest = [] then some j else none
  | none => none

/-- Property lookup on a parsed JSON object, mirroring JS semantics:
`undefined` (here `none`) unless the value is an object with the key;
with duplicate keys, `JSON.parse` keeps the last occurrence. -/
def jgetList : List (String × Json) → String → Option Json
  | [], _ => none
  | (k, v) :: rest, key =>
    match jgetList rest key with
    | some r => some r
    | none => if k = key then some v else none

/-- JS property access `data[key]` on a parsed JSON value. -/
def jget (j : Json) (key : String) : Option Json :=
  match j with
  | .obj fields => jgetList fields key
  | _ => none

/-! ## Data model (`types.ts`) -/

/-- Source `enum Language` (six UI languages). -/
inductive Language where
  | FRENCH | ENGLISH | SPANISH | GERMAN | ITALIAN | JAPANESE
deriving DecidableEq

/-- The string value of each `Language` enum member. -/
def Language.value : Language → String
  | .FRENCH => "Français"
  | .ENGLISH => "English"
  | .SPANISH => "Español"
  | .GERMAN => "Deutsch"
  | .ITALIAN => "Italiano"
  | .JAPANESE => "日本語"

/-- Inverse of `Language.value` (history deserialization; defaults off-path). -/
def Language.ofValue (s : String) : Language :=
  if s = "Français" then .FRENCH
  else if s = "English" then .ENGLISH
  else if s = "Español" then .SPANISH
  else if s = "Deutsch" then .GERMAN
  else if s = "Italiano" then .ITALIAN
  else if s = "日本語" then .JAPANESE
  else .FRENCH

/-- Source `enum Tone`. -/
inductive Tone where
  | NEUTRAL | PROFESSIONAL | SIMPLIFIED | SPIRITUAL
deriving DecidableEq

/-- The string value of each `Tone` enum member. -/
def Tone.value : Tone → String
  | .NEUTRAL => "Neutre"
  | .PROFESSIONAL => "Professionnel"
  | .SIMPLIFIED => "Simplifié (ELI5)"
  | .SPIRITUAL => "Spirituel"

/-- Inverse of `Tone.value`. -/
def Tone.ofValue (s : String) : Tone :=
  if s = "Neutre" then .NEUTRAL
  else if s = "Professionnel" then .PROFESSIONAL
  else if s = "Simplifié (ELI5)" then .SIMPLIFIED
  else if s = "Spirituel" then .SPIRITUAL
  else .NEUTRAL

/-- Source `enum Mode`. -/
inductive Mode where
  | FULL | SUMMARY
deriving DecidableEq

/-- The string value of each `Mode` enum member. -/
def Mode.value : Mode → String
  | .FULL => "Lecture Complète"
  | .SUMMARY => "Résumé Essentiel"

/-- Inverse of `Mode.value`. -/
def Mode.ofValue (s : String) : Mode :=
  if s = "Lecture Complète" then .FULL
  else if s = "Résumé Essentiel" then .SUMMARY
  else .FULL

/-- Source `interface ReadingConfig`. -/
structure ReadingConfig where
  targetLanguage : Language
  tone : Tone
  mode : Mode
deriving DecidableEq

/-! ## Content request (`processContent`, lines 78-177) -/

/-- Line 86: the trimmed input starts with "http" — retrieval-mode detection. -/
def isUrlInput (input : String) : Bool :=
  "http".data.isPrefixOf (jsTrim input.data)

/-- The required field names of the structured-output schema (line 97). -/
def schemaRequired : List String :=
  ["title", "summaryQuote", "content", "readingTimeMinutes", "sourceName"]

/-- The shape-determining part of the `generateContent` request built at
lines 128-138: the retrieval-tool flag, the response MIME type and the
structured-output schema (represented by its required-field list). -/
structure GenRequest where
  tools : Bool
  responseMimeType : Option String
  responseSchema : Option (List String)
deriving DecidableEq

/-- Lines 134-136: `tools: isUrl ? [{googleSearch: {}}] : undefined`,
`responseMimeType: isUrl ? undefined : "application/json"`,
`responseSchema: isUrl ? undefined : responseSchema`. -/
def contentRequest (input : String) : GenRequest :=
  let isUrl := isUrlInput input
  { tools := isUrl
    responseMimeType := if isUrl then none else some "application/json"
    responseSchema := if isUrl then none else some schemaRequired }

/-- A raw error surfaced by the capability call or thrown inside the `try`
block: its `message` and (for SDK/network errors) an HTTP-like `status`. -/
structure RawErr where
  message : String
  status : Option Nat
deriving DecidableEq

/-- Outcome of the content-generation network call: either the SDK threw, or
it returned a response whose `text` may be absent. -/
inductive NetResult where
  | ok (text : Option String)
  | err (e : RawErr)

/-- Error messages of `geminiService.ts` (apostrophes written as \x27). -/
def msgQuota : String :=
  "⚠️ Quota dépassé. Le service gratuit est saturé momentanément. Veuillez réessayer dans quelques instants ou changer de clé API."

/-- Invalid-key message (line 30). -/
def msgKey : String := "🔑 Clé API invalide ou expirée. Veuillez vérifier vos paramètres."

/-- Model-unavailable message (line 35). -/
def msgModel : String := "Le modèle d\x27IA est temporairement indisponible. Veuillez réessayer plus tard."

/-- Safety-block message (line 40). -/
def msgSafety : String := "Le contenu a été bloqué par les filtres de sécurité de l\x27IA."

/-- Generic fallback message (line 44), also the final message of any
internal throw whose text matches none of the recognized patterns. -/
def msgGeneric : String := "Une erreur technique est survenue lors de la communication avec l\x27IA."

/-- Missing-key message of `processContent` (line 82). -/
def msgMissingKey : String := "Clé API manquante. Veuillez configurer votre clé API dans les paramètres."

/-- Empty-response message (line 141). -/
def msgNoResponse : String := "Aucune réponse générée par l\x27IA."

/-- JSON-parse-failure message (line 154). -/
def msgBadFormat : String := "Format de réponse invalide. Veuillez réessayer."

/-- Missing-key message of `generateSpeech` (line 233). -/
def msgMissingKeyTts : String := "Clé API manquante"

/-- Empty-audio message (line 256). -/
def msgNoAudio : String := "Erreur de génération audio: Données vides."

/-- Source `handleGeminiError` (lines 17-45): map a raw error to the user-facing
message that is thrown. -/
def handleGeminiError (e : RawErr) : String :=
  if e.status = some 429 || jsIncludes e.message "429" || jsIncludes e.message "quota" then
    msgQuota
  else if jsIncludes e.message "API key" || e.status = some 403
      || jsIncludes e.message "PERMISSION_DENIED" then
    msgKey
  else if e.status = some 404 || jsIncludes e.message "not found" then
    msgModel
  else if jsIncludes e.message "SAFETY" || jsIncludes e.message "blocked" then
    msgSafety
  else
    msgGeneric

/-- Lines 157-162: the language-code derivation, a chain of reassignments
starting from the default code FR. -/
def deriveLanguageCode (lang : Language) : String :=
  let c0 := "FR"
  let c1 := if lang = Language.ENGLISH then "EN" else c0
  let c2 := if lang = Language.SPANISH then "ES" else c1
  let c3 := if lang = Language.GERMAN then "DE" else c2
  let c4 := if lang = Language.ITALIAN then "IT" else c3
  if lang = Language.JAPANESE then "JP" else c4

/-- The fields returned by `processContent` (lines 164-172).  The source
performs no validation, so each schema field is whatever property access on
the parsed JSON yields — possibly `undefined` (`none`). -/
structure ProcessedFields where
  title : Option Json
  summaryQuote : Option Json
  content : Option Json
  readingTimeMinutes : Option Json
  sourceName : Option Json
  originalUrl : Option String
  languageCode : String

/-- Source `processContent` (lines 78-177).  Returns the result (or the thrown
user-facing message) together with the number of network calls made.
All throws inside the `try` block — SDK errors, the empty-response throw and
the JSON-parse throw — are routed through `handleGeminiError`; the
missing-key throw happens before the `try` and keeps its own message. -/
def processContent (input : String) (config : ReadingConfig) (apiKey : String)
    (net : GenRequest → NetResult) : Except String ProcessedFields × Nat :=
  if apiKey = "" then
    (Except.error msgMissingKey, 0)
  else
    let isUrl := isUrlInput input
    match net (contentRequest input) with
    | .err e => (Except.error (handleGeminiError e), 1)
    | .ok t =>
      let txt := t.getD ""
      if txt = "" then
        (Except.error (handleGeminiError ⟨msgNoResponse, none⟩), 1)
      else
        let jsonStr := if isUrl then ⟨stripFences txt.data⟩ else txt
        match jsonParse jsonStr with
        | none => (Except.error (handleGeminiError ⟨msgBadFormat, none⟩), 1)
        | some data =>
          (Except.ok
            { title := jget data "title"
              summaryQuote := jget data "summaryQuote"
              content := jget data "content"
              readingTimeMinutes := jget data "readingTimeMinutes"
              sourceName := jget data "sourceName"
              originalUrl := if isUrl then some input else none
              languageCode := deriveLanguageCode config.targetLanguage }, 1)

/-! ## Audio pipeline (`pcmToWav`, `generateSpeech`) -/

/-- Little-endian byte pair written by `DataView.setUint16(off, v, true)`. -/
def u16le (v : Nat) : List Nat := [v % 256, v / 256 % 256]

/-- Little-endian byte quadruple written by `DataView.setUint32(off, v, true)`. -/
def u32le (v : Nat) : List Nat :=
  [v % 256, v / 256 % 256, v / 65536 % 256, v / 16777216 % 256]

/-- Source `writeString` (lines 180-184): ASCII bytes of a tag via the
character codes, stored modulo 256 as `setUint8` does. -/
def asciiBytes (s : String) : List Nat := s.data.map (fun c => c.toNat % 256)

/-- Source `pcmToWav` (lines 187-227): prepend the 44-byte RIFF/WAVE header to the
raw PCM bytes.  The writes at offsets 0,4,8,12,16,20,22,24,28,32,34,36,40
are contiguous, so the buffer is their concatenation followed by the data. -/
def pcmToWav (pcmData : List Nat) (sampleRate : Nat := 24000) : List Nat :=
  let numChannels := 1
  let dataLength := pcmData.length
  asciiBytes "RIFF"
    ++ u32le (36 + dataLength)
    ++ asciiBytes "WAVE"
    ++ asciiBytes "fmt "
    ++ u32le 16
    ++ u16le 1
    ++ u16le numChannels
    ++ u32le sampleRate
    ++ u32le (sampleRate * numChannels * 2)
    ++ u16le (numChannels * 2)
    ++ u16le 16
    ++ asciiBytes "data"
    ++ u32le dataLength
    ++ pcmData

/-- Byte of a buffer at an offset (0 past the end). -/
def byteAt (l : List Nat) (i : Nat) : Nat := l.getD i 0

/-- Decode a little-endian 16-bit field at an offset. -/
def readU16 (l : List Nat) (off : Nat) : Nat :=
  byteAt l off + 256 * byteAt l (off + 1)

/-- Decode a little-endian 32-bit field at an offset. -/
def readU32 (l : List Nat) (off : Nat) : Nat :=
  byteAt l off + 256 * byteAt l (off + 1)
    + 65536 * byteAt l (off + 2) + 16777216 * byteAt l (off + 3)

/-- The 44 header bytes `pcmToWav` produces for a given data length at the
fixed 24 kHz mono 16-bit configuration, written out flat (the byte values of
`RIFF`, `WAVE`, `fmt `, `data` and the little-endian fields). -/
def wavHeader (dataLength : Nat) : List Nat :=
  [82, 73, 70, 70,
   (36 + dataLength) % 256, (36 + dataLength) / 256 % 256,
   (36 + dataLength) / 65536 % 256, (36 + dataLength) / 16777216 % 256,
   87, 65, 86, 69,
   102, 109, 116, 32,
   16, 0, 0, 0,
   1, 0,
   1, 0,
   192, 93, 0, 0,
   128, 187, 0, 0,
   2, 0,
   16, 0,
   100, 97, 116, 97,
   dataLength % 256, dataLength / 256 % 256,
   dataLength / 65536 % 256, dataLength / 16777216 % 256]

/-- Line 236: `text.length > 4000 ? text.substring(0, 4000) + "..." : text`. -/
def truncateNarration (text : String) : String :=
  if text.length > 4000 then ⟨text.data.take 4000⟩ ++ "..." else text

/-- Outcome of the speech network call: either the SDK threw, or it returned
a response whose audio payload (already base64-decoded to PCM bytes here)
may be absent. -/
inductive TtsResult where
  | ok (data : Option (List Nat))
  | err (e : RawErr)

/-- Source `generateSpeech` (lines 229-273).  Returns the result — the playable
WAV bytes, standing in for the object-URL handle — or the thrown message,
together with the narration text actually sent to the capability (`none`
when no call was made). -/
def generateSpeech (text : String) (apiKey : String)
    (tts : String → TtsResult) : Except String (List Nat) × Option String :=
  if apiKey = "" then
    (Except.error msgMissingKeyTts, none)
  else
    let textToSpeak := truncateNarration text
    match tts textToSpeak with
    | .err e => (Except.error (handleGeminiError e), some textToSpeak)
    | .ok none => (Except.error (handleGeminiError ⟨msgNoAudio, none⟩), some textToSpeak)
    | .ok (some bytes) => (Except.ok (pcmToWav bytes 24000), some textToSpeak)

/-! ## Orchestrator (`App.tsx`: `handleProcess`, history persistence) -/

/-- Source `interface ProcessedArticle`.  Field values that the source leaves
unvalidated are `Option Json`; `audioUrl` holds the WAV bytes standing in
for the session-scoped blob URL. -/
structure Article where
  id : String
  originalUrl : Option String
  title : Option Json
  summaryQuote : Option Json
  content : Option Json
  readingTimeMinutes : Option Json
  sourceName : Option Json
  date : String
  languageCode : String
  config : ReadingConfig
  audioUrl : Option (List Nat)

/-- JS template-literal stringification of a possibly-undefined value
(primitive cases; sufficient for the narration concatenation). -/
def jsToString : Option Json → String
  | none => "undefined"
  | some .null => "null"
  | some (.bool true) => "true"
  | some (.bool false) => "false"
  | some (.num lex) => lex
  | some (.str s) => s
  | some (.arr _) => ""
  | some (.obj _) => "[object Object]"

/-- Line 103: `${result.title}. ${result.summaryQuote}. ${result.content}`. -/
def narrationOf (r : ProcessedFields) : String :=
  jsToString r.title ++ ". " ++ jsToString r.summaryQuote ++ ". " ++ jsToString r.content

/-- Lines 111-117: assemble the new `ProcessedArticle`. -/
def articleOf (id date : String) (config : ReadingConfig)
    (audioUrl : Option (List Nat)) (r : ProcessedFields) : Article :=
  { id := id
    date := date
    config := config
    audioUrl := audioUrl
    title := r.title
    summaryQuote := r.summaryQuote
    content := r.content
    readingTimeMinutes := r.readingTimeMinutes
    sourceName := r.sourceName
    originalUrl := r.originalUrl
    languageCode := r.languageCode }

/-- Observable outcome of one `handleProcess` run. -/
structure AppOutcome where
  ok : Bool
  history : List Article
  current : Option Article
  viewReader : Bool
  toasts : List (String × String)
  settingsOpened : Bool
  netCalls : Nat

/-- Toast shown when no API key is configured (line 91). -/
def msgConfigureKey : String :=
  "Veuillez configurer votre clé API Google Gemini pour continuer."

/-- Soft warning shown when auto-TTS fails (line 108). -/
def msgAudioWarn : String :=
  "L\x27article est prêt, mais l\x27audio n\x27a pas pu être généré automatiquement (quota ?)."

/-- Success toast (line 123). -/
def msgSuccess : String := "Traitement terminé avec succès !"

/-- Source `handleProcess` (App.tsx lines 86-137): the session orchestrator.
`nowId`/`nowDate` stand for `Date.now().toString()` and the localized date.
`netCalls` counts both capability calls (content and speech). -/
def handleProcess (input : String) (config : ReadingConfig) (apiKey : String)
    (history : List Article) (net : GenRequest → NetResult)
    (tts : String → TtsResult) (nowId nowDate : String) : AppOutcome :=
  if apiKey = "" then
    { ok := false, history := history, current := none, viewReader := false
      toasts := [(msgConfigureKey, "info")], settingsOpened := true, netCalls := 0 }
  else
    match processContent input config apiKey net with
    | (Except.error msg, n) =>
      { ok := false, history := history, current := none, viewReader := false
        toasts := [(msg, "error")]
        settingsOpened := jsIncludes msg "Clé API" || jsIncludes msg "invalide"
        netCalls := n }
    | (Except.ok result, n) =>
      let speech := (generateSpeech (narrationOf result) apiKey tts).1
      let audioUrl := match speech with
        | .ok wav => some wav
        | .error _ => none
      let warnToasts : List (String × String) := match speech with
        | .ok _ => []
        | .error _ => [(msgAudioWarn, "info")]
      let newArticle := articleOf nowId nowDate config audioUrl result
      { ok := true, history := newArticle :: history, current := some newArticle
        viewReader := true, toasts := warnToasts ++ [(msgSuccess, "success")]
        settingsOpened := false, netCalls := n + 1 }

/-! ## History persistence (App.tsx lines 29-37 and 79-84) -/

/-- Line 82: `history.map((audioUrl, ...rest) destructuring)` — drop the
transient audio handle, keep every other field. -/
def dropAudio (a : Article) : Article := { a with audioUrl := none }

/-- A field binding present iff the value is (JSON.stringify drops
`undefined`-valued properties). -/
def optField (k : String) : Option Json → List (String × Json)
  | none => []
  | some j => [(k, j)]

/-- The JSON value `JSON.stringify` serializes for a `ReadingConfig`. -/
def encodeConfig (c : ReadingConfig) : Json :=
  .obj [("targetLanguage", .str c.targetLanguage.value),
        ("tone", .str c.tone.value),
        ("mode", .str c.mode.value)]

/-- Read a `ReadingConfig` back from its parsed JSON (property access on
the deserialized history entry). -/
def decodeConfig (j : Option Json) : ReadingConfig :=
  { targetLanguage := match j.bind (fun v => jget v "targetLanguage") with
      | some (.str s) => Language.ofValue s
      | _ => .FRENCH
    tone := match j.bind (fun v => jget v "tone") with
      | some (.str s) => Tone.ofValue s
      | _ => .NEUTRAL
    mode := match j.bind (fun v => jget v "mode") with
      | some (.str s) => Mode.ofValue s
      | _ => .FULL }

/-- The JSON value `JSON.stringify` produces for one stored history entry
(insertion order: id, date, config, then the spread content fields):
`undefined`-valued properties are omitted, `audioUrl` was already dropped. -/
def encodeArticle (a : Article) : Json :=
  .obj (("id", .str a.id) :: ("date", .str a.date) :: ("config", encodeConfig a.config)
    :: (optField "title" a.title
      ++ (optField "summaryQuote" a.summaryQuote
        ++ (optField "content" a.content
          ++ (optField "readingTimeMinutes" a.readingTimeMinutes
            ++ (optField "sourceName" a.sourceName
              ++ (optField "originalUrl" (a.originalUrl.map Json.str)
                ++ [("languageCode", .str a.languageCode)])))))))

/-- Read an article back from its parsed JSON: the load path
(`setHistory(JSON.parse(saved))`) uses the parsed object directly, so each
field is plain property access; `audioUrl` is absent. -/
def decodeArticle (j : Json) : Article :=
  { id := match jget j "id" with | some (.str s) => s | _ => ""
    date := match jget j "date" with | some (.str s) => s | _ => ""
    config := decodeConfig (jget j "config")
    title := jget j "title"
    summaryQuote := jget j "summaryQuote"
    content := jget j "content"
    readingTimeMinutes := jget j "readingTimeMinutes"
    sourceName := jget j "sourceName"
    originalUrl := match jget j "originalUrl" with | some (.str s) => some s | _ => none
    languageCode := match jget j "languageCode" with | some (.str s) => s | _ => ""
    audioUrl := none }

/-- Lines 79-84: the serialized history — `audioUrl` stripped from each
entry, then the array serialized (represented at the JSON-value level). -/
def encodeHistory (l : List Article) : Json :=
  .arr (l.map (fun a => encodeArticle (dropAudio a)))

/-- Lines 30-37: the deserialized history. -/
def decodeHistory (j : Json) : Option (List Article) :=
  match j with
  | .arr js => some (js.map decodeArticle)
  | _ => none

end OmniRead

/-! ## Helper lemmas -/

namespace OmniRead

/-- The length of a `String.mk`. -/
theorem strLength_mk (l : List Char) : (String.mk l).length = l.length := rfl

/-- Evaluation of `removeAllF` on the empty string. -/
theorem removeAllF_nil (pat : List Char) (n : Nat) : removeAllF pat n [] = [] := by
  cases n <;> rfl

/-- The fuel of `removeAllF` is irrelevant once it covers the length. -/
theorem removeAllF_congr (pat : List Char) :
    ∀ m n (s : List Char), s.length ≤ m → s.length ≤ n →
      removeAllF pat m s = removeAllF pat n s := by
  intro m
  induction m with
  | zero =>
    intro n s hm _
    have hs : s = [] := List.eq_nil_of_length_eq_zero (Nat.le_zero.mp hm)
    subst hs
    rw [removeAllF_nil, removeAllF_nil]
  | succ m ih =>
    intro n s hm hn
    cases s with
    | nil => rw [removeAllF_nil, removeAllF_nil]
    | cons a rest =>
      cases n with
      | zero => exact absurd hn (by simp)
      | succ n' =>
        show removeAllF pat (m + 1) (a :: rest) = removeAllF pat (n' + 1) (a :: rest)
        simp only [removeAllF]
        by_cases hp : pat.isPrefixOf (a :: rest)
        · rw [if_pos hp, if_pos hp]
          apply ih
          · calc (rest.drop (pat.length - 1)).length ≤ rest.length := by
                  rw [List.length_drop]; omega
              _ ≤ m := by simpa using hm
          · calc (rest.drop (pat.length - 1)).length ≤ rest.length := by
                  rw [List.length_drop]; omega
              _ ≤ n' := by simpa using hn
        · rw [if_neg hp, if_neg hp]
          have h1 : rest.length ≤ m := by simpa using hm
          have h2 : rest.length ≤ n' := by simpa using hn
          rw [ih n' rest h1 h2]

/-- Evaluation of `removeAll` on the empty string. -/
theorem removeAll_nil (pat : List Char) : removeAll pat [] = [] := rfl

/-- Behavior of `removeAll` when the pattern matches at the current position. -/
theorem removeAll_cons_pos (pat : List Char) (a : Char) (rest : List Char)
    (h : pat.isPrefixOf (a :: rest) = true) :
    removeAll pat (a :: rest) = removeAll pat (rest.drop (pat.length - 1)) := by
  show removeAllF pat (rest.length + 1) (a :: rest) = _
  simp only [removeAllF, if_pos h]
  exact removeAllF_congr pat rest.length (rest.drop (pat.length - 1)).length _
    (by rw [List.length_drop]; omega) (Nat.le_refl _)

/-- Behavior of `removeAll` when the pattern does not match at the current position. -/
theorem removeAll_cons_neg (pat : List Char) (a : Char) (rest : List Char)
    (h : pat.isPrefixOf (a :: rest) = false) :
    removeAll pat (a :: rest) = a :: removeAll pat rest := by
  show removeAllF pat (rest.length + 1) (a :: rest) = _
  simp only [removeAllF, if_neg (by simp [h] : ¬ pat.isPrefixOf (a :: rest) = true)]
  rfl

/-- A prefix occurrence of the pattern is consumed whole. -/
theorem removeAll_pref_consume (pat s : List Char) (hne : pat ≠ []) :
    removeAll pat (pat ++ s) = removeAll pat s := by
  cases pat with
  | nil => exact absurd rfl hne
  | cons p pt =>
    have hp : (p :: pt).isPrefixOf (p :: (pt ++ s)) = true :=
      List.isPrefixOf_iff_prefix.mpr ⟨s, rfl⟩
    calc removeAll (p :: pt) ((p :: pt) ++ s)
        = removeAll (p :: pt) (p :: (pt ++ s)) := rfl
      _ = removeAll (p :: pt) ((pt ++ s).drop ((p :: pt).length - 1)) :=
          removeAll_cons_pos (p :: pt) p (pt ++ s) hp
      _ = removeAll (p :: pt) s := by
          congr 1
          show (pt ++ s).drop pt.length = s
          exact List.drop_left pt s

end OmniRead

namespace OmniRead

/-- A prefix of `x` is a prefix of `x ++ y`. -/
theorem ipo_extend (p x y : List Char) (h : p.isPrefixOf x = true) :
    p.isPrefixOf (x ++ y) = true :=
  List.isPrefixOf_iff_prefix.mpr
    (( List.isPrefixOf_iff_prefix.mp h).trans ( List.prefix_append x y))

/-- No occurrence of the json fence marker can straddle the boundary with a
trailing bare fence marker: a prefix match against `t ++ fenceTick` is
already a prefix match against `t` (the final characters `json` of the
marker cannot be backticks). -/
theorem fenceJson_prefix_boundary (t : List Char)
    (h : fenceJson.isPrefixOf (t ++ fenceTick) = true) :
    fenceJson.isPrefixOf t = true := by
  have hp : fenceJson <+: (t ++ fenceTick) := List.isPrefixOf_iff_prefix.mp h
  by_cases h7 : 7 ≤ t.length
  · have htake : fenceJson = (t ++ fenceTick).take 7 := List.prefix_iff_eq_take.mp hp
    have : (t ++ fenceTick).take 7 = t.take 7 := by
      rw [List.take_append_eq_append_take]
      have : 7 - t.length = 0 := by omega
      rw [this]
      simp
    rw [this] at htake
    exact List.isPrefixOf_iff_prefix.mpr ( List.prefix_iff_eq_take.mpr htake)
  · exfalso
    have hlen : (7 : Nat) ≤ t.length + 3 := by
      have := hp.length_le
      simpa [fenceJson, fenceTick] using this
    have hL : 4 ≤ t.length ∧ t.length ≤ 6 := by omega
    have htake : fenceJson = (t ++ fenceTick).take 7 := List.prefix_iff_eq_take.mp hp
    have htk : (t ++ fenceTick).take 7 = t ++ fenceTick.take (7 - t.length) := by
      rw [List.take_append_eq_append_take]
      congr 1
      exact List.take_of_length_le (by omega)
    rw [htk] at htake
    have hrhs : (t ++ fenceTick.take (7 - t.length)).getD 6 'x'
        = (fenceTick.take (7 - t.length)).getD (6 - t.length) 'x' := by
      apply List.getD_append_right
      omega
    have h6 : (fenceTick.take (7 - t.length)).getD (6 - t.length) 'x' = 'n' := by
      have h0 : fenceJson.getD 6 'x' = 'n' := by decide
      rw [htake, hrhs] at h0
      exact h0
    have hcases : t.length = 4 ∨ t.length = 5 ∨ t.length = 6 := by omega
    rcases hcases with h4 | h5 | h6'
    · rw [h4] at h6; exact absurd h6 (by decide)
    · rw [h5] at h6; exact absurd h6 (by decide)
    · rw [h6'] at h6; exact absurd h6 (by decide)

/-- Removing the json fence marker commutes with appending a trailing bare
fence marker (no occurrence can straddle the boundary). -/
theorem removeAll_json_append_tick :
    ∀ (n : Nat) (s : List Char), s.length ≤ n →
      removeAll fenceJson (s ++ fenceTick) = removeAll fenceJson s ++ fenceTick := by
  intro n
  induction n with
  | zero =>
    intro s h
    have hs : s = [] := List.eq_nil_of_length_eq_zero (Nat.le_zero.mp h)
    subst hs
    decide
  | succ n ih =>
    intro s h
    cases s with
    | nil => decide
    | cons a rest =>
      by_cases hp : fenceJson.isPrefixOf ((a :: rest) ++ fenceTick) = true
      · have hp' : fenceJson.isPrefixOf (a :: rest) = true :=
          fenceJson_prefix_boundary _ hp
        obtain ⟨tl, htl⟩ := List.isPrefixOf_iff_prefix.mp hp'
        have hlen : tl.length ≤ n := by
          have := congrArg List.length htl
          simp [fenceJson] at this
          simp at h
          omega
        calc removeAll fenceJson ((a :: rest) ++ fenceTick)
            = removeAll fenceJson (fenceJson ++ (tl ++ fenceTick)) := by
              rw [← htl]; rw [List.append_assoc]
          _ = removeAll fenceJson (tl ++ fenceTick) :=
              removeAll_pref_consume _ _ (by decide)
          _ = removeAll fenceJson tl ++ fenceTick := ih tl hlen
          _ = removeAll fenceJson (a :: rest) ++ fenceTick := by
              rw [← htl, removeAll_pref_consume _ _ (by decide)]
      · have hp2 : fenceJson.isPrefixOf (a :: rest) = false := by
          by_contra hcon
          have : fenceJson.isPrefixOf (a :: rest) = true := by
            cases hx : fenceJson.isPrefixOf (a :: rest)
            · exact absurd hx hcon
            · rfl
          exact hp (ipo_extend _ _ _ this)
        have hrest : rest.length ≤ n := by simp at h; omega
        calc removeAll fenceJson ((a :: rest) ++ fenceTick)
            = removeAll fenceJson (a :: (rest ++ fenceTick)) := rfl
          _ = a :: removeAll fenceJson (rest ++ fenceTick) := by
              apply removeAll_cons_neg
              cases hx : fenceJson.isPrefixOf (a :: (rest ++ fenceTick))
              · rfl
              · exact absurd hx hp
          _ = a :: (removeAll fenceJson rest ++ fenceTick) := by rw [ih rest hrest]
          _ = removeAll fenceJson (a :: rest) ++ fenceTick := by
              rw [removeAll_cons_neg _ _ _ hp2]; rfl

end OmniRead

namespace OmniRead

/-- Appending a bare fence marker does not change the result of deleting all
bare fence markers: the appended three backticks merge into the (possibly
partial) trailing backtick run and are deleted in full. -/
theorem removeAll_tick_append_tick :
    ∀ (n : Nat) (u : List Char), u.length ≤ n →
      removeAll fenceTick (u ++ fenceTick) = removeAll fenceTick u := by
  intro n
  induction n with
  | zero =>
    intro u h
    have hu : u = [] := List.eq_nil_of_length_eq_zero (Nat.le_zero.mp h)
    subst hu
    decide
  | succ n ih =>
    intro u h
    cases u with
    | nil => decide
    | cons a rest =>
      by_cases hp : fenceTick.isPrefixOf (a :: rest) = true
      · obtain ⟨tl, htl⟩ := List.isPrefixOf_iff_prefix.mp hp
        have hlen : tl.length ≤ n := by
          have := congrArg List.length htl
          simp [fenceTick] at this
          simp at h
          omega
        calc removeAll fenceTick ((a :: rest) ++ fenceTick)
            = removeAll fenceTick (fenceTick ++ (tl ++ fenceTick)) := by
              rw [← htl]; rw [List.append_assoc]
          _ = removeAll fenceTick (tl ++ fenceTick) :=
              removeAll_pref_consume _ _ (by decide)
          _ = removeAll fenceTick tl := ih tl hlen
          _ = removeAll fenceTick (a :: rest) := by
              rw [← htl, removeAll_pref_consume _ _ (by decide)]
      · by_cases hq : fenceTick.isPrefixOf ((a :: rest) ++ fenceTick) = true
        · -- boundary: the whole of `a :: rest` is a short backtick run
          have hft : fenceTick = ['\x60', '\x60', '\x60'] := by decide
          have hL3 : rest.length ≤ 1 := by
            by_contra hgt
            push_neg at hgt
            apply hp
            have htake : fenceTick = ((a :: rest) ++ fenceTick).take 3 :=
              List.prefix_iff_eq_take.mp ( List.isPrefixOf_iff_prefix.mp hq)
            have heq : ((a :: rest) ++ fenceTick).take 3 = (a :: rest).take 3 := by
              rw [List.take_append_eq_append_take]
              have h0 : 3 - (a :: rest).length = 0 := by
                simp only [List.length_cons]; omega
              rw [h0]
              simp
            rw [heq] at htake
            exact List.isPrefixOf_iff_prefix.mpr ( List.prefix_iff_eq_take.mpr htake)
          cases rest with
          | nil =>
            rw [hft] at hq
            simp [List.isPrefixOf] at hq
            subst hq
            decide
          | cons b rest2 =>
            have h2 : rest2 = [] := by
              cases rest2 with
              | nil => rfl
              | cons c r3 => simp at hL3
            subst h2
            rw [hft] at hq
            simp [List.isPrefixOf] at hq
            obtain ⟨ha, hb⟩ := hq
            subst ha
            subst hb
            decide
        · have hp2 : fenceTick.isPrefixOf (a :: rest) = false := by
            cases hx : fenceTick.isPrefixOf (a :: rest)
            · rfl
            · exact absurd hx hp
          have hrest : rest.length ≤ n := by simp at h; omega
          calc removeAll fenceTick ((a :: rest) ++ fenceTick)
              = removeAll fenceTick (a :: (rest ++ fenceTick)) := rfl
            _ = a :: removeAll fenceTick (rest ++ fenceTick) := by
                apply removeAll_cons_neg
                cases hx : fenceTick.isPrefixOf (a :: (rest ++ fenceTick))
                · rfl
                · exact absurd hx hq
            _ = a :: removeAll fenceTick rest := by rw [ih rest hrest]
            _ = removeAll fenceTick (a :: rest) := by
                rw [removeAll_cons_neg _ _ _ hp2]

end OmniRead

namespace OmniRead

/-- After deleting all bare fence markers, no bare fence marker remains:
every maximal backtick run shrinks to length at most two.  Strengthened with
head-prefix transfer facts to make the induction go through. -/
theorem removeAll_tick_clean :
    ∀ (n : Nat) (s : List Char), s.length ≤ n →
      hasSeq fenceTick (removeAll fenceTick s) = false ∧
      (("``".data.isPrefixOf (removeAll fenceTick s)) = true → ("``".data.isPrefixOf s) = true) ∧
      (("`".data.isPrefixOf (removeAll fenceTick s)) = true → ("`".data.isPrefixOf s) = true) := by
  intro n
  induction n with
  | zero =>
    intro s h
    have hs : s = [] := List.eq_nil_of_length_eq_zero (Nat.le_zero.mp h)
    subst hs
    refine ⟨by decide, ?_, ?_⟩ <;> intro hx <;> exact absurd hx (by decide)
  | succ n ih =>
    intro s h
    cases s with
    | nil =>
      refine ⟨by decide, ?_, ?_⟩ <;> intro hx <;> exact absurd hx (by decide)
    | cons a rest =>
      by_cases hp : fenceTick.isPrefixOf (a :: rest) = true
      · obtain ⟨tl, htl⟩ := List.isPrefixOf_iff_prefix.mp hp
        have hlen : tl.length ≤ n := by
          have := congrArg List.length htl
          simp [fenceTick] at this
          simp at h
          omega
        have hrw : removeAll fenceTick (a :: rest) = removeAll fenceTick tl := by
          rw [← htl, removeAll_pref_consume _ _ (by decide)]
        obtain ⟨ih1, _, _⟩ := ih tl hlen
        have hft : fenceTick = ['\x60', '\x60', '\x60'] := by decide
        have hhead : a :: rest = '\x60' :: '\x60' :: '\x60' :: tl := by
          rw [← htl, hft]; rfl
        refine ⟨by rw [hrw]; exact ih1, ?_, ?_⟩
        · intro _
          rw [hhead]
          show List.isPrefixOf ['\x60', '\x60'] ('\x60' :: '\x60' :: '\x60' :: tl) = true
          simp [List.isPrefixOf]
        · intro _
          rw [hhead]
          show List.isPrefixOf ['\x60'] ('\x60' :: '\x60' :: '\x60' :: tl) = true
          simp [List.isPrefixOf]
      · have hp2 : fenceTick.isPrefixOf (a :: rest) = false := by
          cases hx : fenceTick.isPrefixOf (a :: rest)
          · rfl
          · exact absurd hx hp
        have hrest : rest.length ≤ n := by simp at h; omega
        obtain ⟨ih1, ih2, ih3⟩ := ih rest hrest
        have hrw : removeAll fenceTick (a :: rest) = a :: removeAll fenceTick rest :=
          removeAll_cons_neg _ _ _ hp2
        rw [hrw]
        refine ⟨?_, ?_, ?_⟩
        · show (fenceTick.isPrefixOf (a :: removeAll fenceTick rest)
            || hasSeq fenceTick (removeAll fenceTick rest)) = false
          rw [ih1, Bool.or_false]
          cases hx : fenceTick.isPrefixOf (a :: removeAll fenceTick rest)
          · rfl
          · exfalso
            have hft : fenceTick = ['\x60', '\x60', '\x60'] := by decide
            rw [hft] at hx
            simp [List.isPrefixOf] at hx
            obtain ⟨ha, htl⟩ := hx
            have htail := ih2 ( List.isPrefixOf_iff_prefix.mpr htl)
            apply Bool.eq_false_iff.mp hp2
            subst ha
            apply List.isPrefixOf_iff_prefix.mpr
            rw [hft]
            obtain ⟨t2, ht2⟩ := List.isPrefixOf_iff_prefix.mp htail
            exact ⟨t2, by rw [← ht2]; rfl⟩
        · intro hx
          simp [List.isPrefixOf] at hx
          obtain ⟨ha, htl⟩ := hx
          have htail := ih3 ( List.isPrefixOf_iff_prefix.mpr htl)
          subst ha
          apply List.isPrefixOf_iff_prefix.mpr
          obtain ⟨t2, ht2⟩ := List.isPrefixOf_iff_prefix.mp htail
          exact ⟨t2, by rw [← ht2]; rfl⟩
        · intro hx
          simp [List.isPrefixOf] at hx
          subst hx
          apply List.isPrefixOf_iff_prefix.mpr
          exact ⟨rest, rfl⟩

end OmniRead

namespace OmniRead

/-- An occurrence in `x` is an occurrence in `x ++ y`. -/
theorem hasSeq_append_left (p x y : List Char) (h : hasSeq p x = true) :
    hasSeq p (x ++ y) = true := by
  induction x with
  | nil =>
    have hp : p = [] := by
      have : p.isEmpty = true := h
      exact List.isEmpty_iff.mp this
    subst hp
    cases y with
    | nil => rfl
    | cons b t =>
      show ([] : List Char).isPrefixOf (b :: t) || hasSeq [] t = true
      simp [List.isPrefixOf]
  | cons a rest ih =>
    show (p.isPrefixOf (a :: (rest ++ y)) || hasSeq p (rest ++ y)) = true
    have h' : (p.isPrefixOf (a :: rest) || hasSeq p rest) = true := h
    rcases Bool.or_eq_true_iff.mp h' with h1 | h2
    · exact Bool.or_eq_true_iff.mpr (Or.inl (ipo_extend p (a :: rest) y h1))
    · exact Bool.or_eq_true_iff.mpr (Or.inr (ih h2))

/-- An occurrence survives prepending (contrapositive form used for
`dropWhile`). -/
theorem hasSeq_dropWhile (p : List Char) (q : Char → Bool) :
    ∀ x : List Char, hasSeq p (x.dropWhile q) = true → hasSeq p x = true := by
  intro x
  induction x with
  | nil => intro h; exact h
  | cons a rest ih =>
    intro h
    by_cases hq : q a = true
    · rw [List.dropWhile_cons_of_pos hq] at h
      have := ih h
      show (p.isPrefixOf (a :: rest) || hasSeq p rest) = true
      rw [this, Bool.or_true]
    · rw [List.dropWhile_cons_of_neg hq] at h
      exact h

/-- The `rtrim` step keeps a leading portion of the string, so no new occurrence appears. -/
theorem hasSeq_rtrim (p u : List Char) (h : hasSeq p (rtrim u) = true) :
    hasSeq p u = true := by
  have hsplit : u = rtrim u ++ (u.reverse.takeWhile jsWhitespace).reverse := by
    have h1 : u.reverse.takeWhile jsWhitespace ++ u.reverse.dropWhile jsWhitespace
        = u.reverse := List.takeWhile_append_dropWhile jsWhitespace u.reverse
    have h2 := congrArg List.reverse h1
    rw [List.reverse_append, List.reverse_reverse] at h2
    exact h2.symm
  calc hasSeq p u = hasSeq p (rtrim u ++ (u.reverse.takeWhile jsWhitespace).reverse) := by
        rw [← hsplit]
    _ = true := hasSeq_append_left _ _ _ h

/-- The `jsTrim` step cannot create an occurrence. -/
theorem hasSeq_jsTrim (p u : List Char) (h : hasSeq p (jsTrim u) = true) :
    hasSeq p u = true :=
  hasSeq_dropWhile p jsWhitespace u (hasSeq_rtrim p (ltrim u) h)

/-- An occurrence of a superpattern yields an occurrence of any of its
prefixes. -/
theorem hasSeq_of_superpattern (p q v : List Char) (hpq : p.isPrefixOf q = true)
    (h : hasSeq q v = true) : hasSeq p v = true := by
  induction v with
  | nil =>
    have hq : q = [] := List.isEmpty_iff.mp h
    subst hq
    have hp : p = [] := by
      have := List.isPrefixOf_iff_prefix.mp hpq
      simpa using List.prefix_nil.mp this
    subst hp
    rfl
  | cons a rest ih =>
    have h' : (q.isPrefixOf (a :: rest) || hasSeq q rest) = true := h
    show (p.isPrefixOf (a :: rest) || hasSeq p rest) = true
    rcases Bool.or_eq_true_iff.mp h' with h1 | h2
    · have : p <+: (a :: rest) :=
        ( List.isPrefixOf_iff_prefix.mp hpq).trans ( List.isPrefixOf_iff_prefix.mp h1)
      exact Bool.or_eq_true_iff.mpr (Or.inl ( List.isPrefixOf_iff_prefix.mpr this))
    · rw [ih h2, Bool.or_true]

/-- The composed stripping equation behind claims C6: stripping a response
wrapped in fences gives the same string as stripping the bare response. -/
theorem stripFences_wrap (t : List Char) :
    stripFences (fenceJson ++ t ++ fenceTick) = stripFences t := by
  show jsTrim (removeAll fenceTick (removeAll fenceJson ((fenceJson ++ t) ++ fenceTick)))
      = jsTrim (removeAll fenceTick (removeAll fenceJson t))
  have h1 : removeAll fenceJson ((fenceJson ++ t) ++ fenceTick)
      = removeAll fenceJson t ++ fenceTick := by
    rw [List.append_assoc, removeAll_pref_consume _ _ (by decide)]
    exact removeAll_json_append_tick t.length t (Nat.le_refl _)
  rw [h1, removeAll_tick_append_tick (removeAll fenceJson t).length _ (Nat.le_refl _)]

/-- No bare fence marker survives `stripFences`. -/
theorem stripFences_no_tick (s : List Char) :
    hasSeq fenceTick (stripFences s) = false := by
  cases hx : hasSeq fenceTick (stripFences s)
  · rfl
  · exfalso
    have h1 := hasSeq_jsTrim fenceTick (removeAll fenceTick (removeAll fenceJson s)) hx
    have h2 := (removeAll_tick_clean (removeAll fenceJson s).length
      (removeAll fenceJson s) (Nat.le_refl _)).1
    rw [h1] at h2
    exact Bool.true_eq_false.mp h2

/-- No json fence marker survives `stripFences` either (it contains a bare
fence marker). -/
theorem stripFences_no_json (s : List Char) :
    hasSeq fenceJson (stripFences s) = false := by
  cases hx : hasSeq fenceJson (stripFences s)
  · rfl
  · exfalso
    have h1 := hasSeq_of_superpattern fenceTick fenceJson _ (by decide) hx
    rw [stripFences_no_tick s] at h1
    exact Bool.false_eq_true.mp h1

end OmniRead

namespace OmniRead

/-- With a non-empty key, `generateSpeech` always sends exactly the
truncated narration text. -/
theorem generateSpeech_sent (text apiKey : String) (tts : String → TtsResult)
    (h : apiKey ≠ "") :
    (generateSpeech text apiKey tts).2 = some (truncateNarration text) := by
  unfold generateSpeech
  rw [if_neg h]
  show (match tts (truncateNarration text) with
    | TtsResult.err e =>
      (Except.error (handleGeminiError e), some (truncateNarration text))
    | TtsResult.ok none =>
      (Except.error (handleGeminiError ⟨msgNoAudio, none⟩), some (truncateNarration text))
    | TtsResult.ok (some bytes) =>
      (Except.ok (pcmToWav bytes 24000), some (truncateNarration text))).2
    = some (truncateNarration text)
  cases tts (truncateNarration text) with
  | err e => rfl
  | ok d => cases d <;> rfl

/-- Lookup skips a binding with a different key. -/
theorem jgetList_cons_ne (k' k : String) (v : Json) (rest : List (String × Json))
    (h : k' ≠ k) : jgetList ((k', v) :: rest) k = jgetList rest k := by
  show (match jgetList rest k with
    | some r => some r
    | none => if k' = k then some v else none) = jgetList rest k
  cases hres : jgetList rest k
  · simp [if_neg h]
  · rfl

/-- Lookup finds the binding when the tail has no binding for the key. -/
theorem jgetList_cons_self (k : String) (v : Json) (rest : List (String × Json))
    (h : jgetList rest k = none) : jgetList ((k, v) :: rest) k = some v := by
  show (match jgetList rest k with
    | some r => some r
    | none => if k = k then some v else none) = some v
  rw [h]
  simp

/-- Lookup skips an optional field with a different key. -/
theorem jgetList_optField_ne (k' k : String) (v : Option Json)
    (rest : List (String × Json)) (h : k' ≠ k) :
    jgetList (optField k' v ++ rest) k = jgetList rest k := by
  cases v with
  | none => rfl
  | some j => exact jgetList_cons_ne k' k j rest h

/-- Lookup of the own key of an optional field yields exactly the optional value
when the tail has no binding for the key. -/
theorem jgetList_optField_self (k : String) (v : Option Json)
    (rest : List (String × Json)) (h : jgetList rest k = none) :
    jgetList (optField k v ++ rest) k = v := by
  cases v with
  | none => exact h
  | some j => exact jgetList_cons_self k j rest h

/-- The enum-value mapping of `Language` is injective (round trip). -/
theorem languageOfValue_value (l : Language) : Language.ofValue l.value = l := by
  cases l <;> rfl

/-- The enum-value mapping of `Tone` is injective (round trip). -/
theorem toneOfValue_value (t : Tone) : Tone.ofValue t.value = t := by
  cases t <;> rfl

/-- The enum-value mapping of `Mode` is injective (round trip). -/
theorem modeOfValue_value (m : Mode) : Mode.ofValue m.value = m := by
  cases m <;> rfl

/-- A serialized `ReadingConfig` deserializes to itself. -/
theorem decodeConfig_encodeConfig (c : ReadingConfig) :
    decodeConfig (some (encodeConfig c)) = c := by
  show ({ targetLanguage := Language.ofValue c.targetLanguage.value
          tone := Tone.ofValue c.tone.value
          mode := Mode.ofValue c.mode.value } : ReadingConfig) = c
  rw [languageOfValue_value, toneOfValue_value, modeOfValue_value]

end OmniRead

namespace OmniRead

/-- Lookup on an object value is list lookup. -/
theorem jget_obj (l : List (String × Json)) (k : String) :
    jget (Json.obj l) k = jgetList l k := rfl

/-- The serialized article, written with its binding list in head-normal
form (for the per-field lookup lemmas). -/
theorem encodeArticle_fields (a : Article) :
    encodeArticle a = Json.obj
      (("id", Json.str a.id) :: ("date", Json.str a.date)
        :: ("config", encodeConfig a.config)
        :: (optField "title" a.title
          ++ (optField "summaryQuote" a.summaryQuote
            ++ (optField "content" a.content
              ++ (optField "readingTimeMinutes" a.readingTimeMinutes
                ++ (optField "sourceName" a.sourceName
                  ++ (optField "originalUrl" (a.originalUrl.map Json.str)
                    ++ [("languageCode", Json.str a.languageCode)]))))))) := rfl

/-- The `id` field survives serialization. -/
theorem encodeArticle_id (a : Article) :
    jget (encodeArticle a) "id" = some (.str a.id) := by
  rw [encodeArticle_fields, jget_obj]
  apply jgetList_cons_self
  rw [jgetList_cons_ne _ _ _ _ (by decide), jgetList_cons_ne _ _ _ _ (by decide),
      jgetList_optField_ne _ _ _ _ (by decide), jgetList_optField_ne _ _ _ _ (by decide),
      jgetList_optField_ne _ _ _ _ (by decide), jgetList_optField_ne _ _ _ _ (by decide),
      jgetList_optField_ne _ _ _ _ (by decide), jgetList_optField_ne _ _ _ _ (by decide),
      jgetList_cons_ne _ _ _ _ (by decide)]
  rfl

/-- The `date` field survives serialization. -/
theorem encodeArticle_date (a : Article) :
    jget (encodeArticle a) "date" = some (.str a.date) := by
  rw [encodeArticle_fields, jget_obj, jgetList_cons_ne _ _ _ _ (by decide)]
  apply jgetList_cons_self
  rw [jgetList_cons_ne _ _ _ _ (by decide),
      jgetList_optField_ne _ _ _ _ (by decide), jgetList_optField_ne _ _ _ _ (by decide),
      jgetList_optField_ne _ _ _ _ (by decide), jgetList_optField_ne _ _ _ _ (by decide),
      jgetList_optField_ne _ _ _ _ (by decide), jgetList_optField_ne _ _ _ _ (by decide),
      jgetList_cons_ne _ _ _ _ (by decide)]
  rfl

/-- The `config` field survives serialization. -/
theorem encodeArticle_config (a : Article) :
    jget (encodeArticle a) "config" = some (encodeConfig a.config) := by
  rw [encodeArticle_fields, jget_obj, jgetList_cons_ne _ _ _ _ (by decide),
      jgetList_cons_ne _ _ _ _ (by decide)]
  apply jgetList_cons_self
  rw [jgetList_optField_ne _ _ _ _ (by decide), jgetList_optField_ne _ _ _ _ (by decide),
      jgetList_optField_ne _ _ _ _ (by decide), jgetList_optField_ne _ _ _ _ (by decide),
      jgetList_optField_ne _ _ _ _ (by decide), jgetList_optField_ne _ _ _ _ (by decide),
      jgetList_cons_ne _ _ _ _ (by decide)]
  rfl

/-- The `title` field survives serialization (absent iff absent). -/
theorem encodeArticle_title (a : Article) :
    jget (encodeArticle a) "title" = a.title := by
  rw [encodeArticle_fields, jget_obj, jgetList_cons_ne _ _ _ _ (by decide),
      jgetList_cons_ne _ _ _ _ (by decide), jgetList_cons_ne _ _ _ _ (by decide)]
  apply jgetList_optField_self
  rw [jgetList_optField_ne _ _ _ _ (by decide), jgetList_optField_ne _ _ _ _ (by decide),
      jgetList_optField_ne _ _ _ _ (by decide), jgetList_optField_ne _ _ _ _ (by decide),
      jgetList_optField_ne _ _ _ _ (by decide), jgetList_cons_ne _ _ _ _ (by decide)]
  rfl

/-- The `summaryQuote` field survives serialization (absent iff absent). -/
theorem encodeArticle_summaryQuote (a : Article) :
    jget (encodeArticle a) "summaryQuote" = a.summaryQuote := by
  rw [encodeArticle_fields, jget_obj, jgetList_cons_ne _ _ _ _ (by decide),
      jgetList_cons_ne _ _ _ _ (by decide), jgetList_cons_ne _ _ _ _ (by decide),
      jgetList_optField_ne _ _ _ _ (by decide)]
  apply jgetList_optField_self
  rw [jgetList_optField_ne _ _ _ _ (by decide), jgetList_optField_ne _ _ _ _ (by decide),
      jgetList_optField_ne _ _ _ _ (by decide), jgetList_optField_ne _ _ _ _ (by decide),
      jgetList_cons_ne _ _ _ _ (by decide)]
  rfl

/-- The `content` field survives serialization (absent iff absent). -/
theorem encodeArticle_content (a : Article) :
    jget (encodeArticle a) "content" = a.content := by
  rw [encodeArticle_fields, jget_obj, jgetList_cons_ne _ _ _ _ (by decide),
      jgetList_cons_ne _ _ _ _ (by decide), jgetList_cons_ne _ _ _ _ (by decide),
      jgetList_optField_ne _ _ _ _ (by decide), jgetList_optField_ne _ _ _ _ (by decide)]
  apply jgetList_optField_self
  rw [jgetList_optField_ne _ _ _ _ (by decide), jgetList_optField_ne _ _ _ _ (by decide),
      jgetList_optField_ne _ _ _ _ (by decide), jgetList_cons_ne _ _ _ _ (by decide)]
  rfl

/-- The `readingTimeMinutes` field survives serialization (absent iff absent). -/
theorem encodeArticle_readingTimeMinutes (a : Article) :
    jget (encodeArticle a) "readingTimeMinutes" = a.readingTimeMinutes := by
  rw [encodeArticle_fields, jget_obj, jgetList_cons_ne _ _ _ _ (by decide),
      jgetList_cons_ne _ _ _ _ (by decide), jgetList_cons_ne _ _ _ _ (by decide),
      jgetList_optField_ne _ _ _ _ (by decide), jgetList_optField_ne _ _ _ _ (by decide),
      jgetList_optField_ne _ _ _ _ (by decide)]
  apply jgetList_optField_self
  rw [jgetList_optField_ne _ _ _ _ (by decide), jgetList_optField_ne _ _ _ _ (by decide),
      jgetList_cons_ne _ _ _ _ (by decide)]
  rfl

/-- The `sourceName` field survives serialization (absent iff absent). -/
theorem encodeArticle_sourceName (a : Article) :
    jget (encodeArticle a) "sourceName" = a.sourceName := by
  rw [encodeArticle_fields, jget_obj, jgetList_cons_ne _ _ _ _ (by decide),
      jgetList_cons_ne _ _ _ _ (by decide), jgetList_cons_ne _ _ _ _ (by decide),
      jgetList_optField_ne _ _ _ _ (by decide), jgetList_optField_ne _ _ _ _ (by decide),
      jgetList_optField_ne _ _ _ _ (by decide), jgetList_optField_ne _ _ _ _ (by decide)]
  apply jgetList_optField_self
  rw [jgetList_optField_ne _ _ _ _ (by decide), jgetList_cons_ne _ _ _ _ (by decide)]
  rfl

/-- The `originalUrl` field survives serialization (absent iff absent). -/
theorem encodeArticle_originalUrl (a : Article) :
    jget (encodeArticle a) "originalUrl" = a.originalUrl.map Json.str := by
  rw [encodeArticle_fields, jget_obj, jgetList_cons_ne _ _ _ _ (by decide),
      jgetList_cons_ne _ _ _ _ (by decide), jgetList_cons_ne _ _ _ _ (by decide),
      jgetList_optField_ne _ _ _ _ (by decide), jgetList_optField_ne _ _ _ _ (by decide),
      jgetList_optField_ne _ _ _ _ (by decide), jgetList_optField_ne _ _ _ _ (by decide),
      jgetList_optField_ne _ _ _ _ (by decide)]
  apply jgetList_optField_self
  rw [jgetList_cons_ne _ _ _ _ (by decide)]
  rfl

/-- The `languageCode` field survives serialization. -/
theorem encodeArticle_languageCode (a : Article) :
    jget (encodeArticle a) "languageCode" = some (.str a.languageCode) := by
  rw [encodeArticle_fields, jget_obj, jgetList_cons_ne _ _ _ _ (by decide),
      jgetList_cons_ne _ _ _ _ (by decide), jgetList_cons_ne _ _ _ _ (by decide),
      jgetList_optField_ne _ _ _ _ (by decide), jgetList_optField_ne _ _ _ _ (by decide),
      jgetList_optField_ne _ _ _ _ (by decide), jgetList_optField_ne _ _ _ _ (by decide),
      jgetList_optField_ne _ _ _ _ (by decide), jgetList_optField_ne _ _ _ _ (by decide)]
  apply jgetList_cons_self
  rfl

/-- A serialized history entry deserializes to the original article minus
its audio handle. -/
theorem decodeArticle_encodeArticle (a : Article) (h : a.audioUrl = none) :
    decodeArticle (encodeArticle a) = a := by
  obtain ⟨id, ou, t, sq, c, rtm, sn, d, lc, cfg, au⟩ := a
  simp only at h
  subst h
  unfold decodeArticle
  rw [encodeArticle_id, encodeArticle_date, encodeArticle_config, encodeArticle_title,
      encodeArticle_summaryQuote, encodeArticle_content, encodeArticle_readingTimeMinutes,
      encodeArticle_sourceName, encodeArticle_originalUrl, encodeArticle_languageCode,
      decodeConfig_encodeConfig]
  cases ou with
  | none => rfl
  | some u => rfl

end OmniRead

/-! ## Claim theorems -/

namespace OmniRead

/-- The pcmToWav buffer written out flat. -/
theorem pcmToWav_flat (pcm : List Nat) :
    pcmToWav pcm 24000 = wavHeader pcm.length ++ pcm := rfl

/-- Total length of the encoded container. -/
theorem pcmToWav_len (pcm : List Nat) :
    (pcmToWav pcm 24000).length = pcm.length + 44 := by
  rw [pcmToWav_flat, List.length_append,
    show (wavHeader pcm.length).length = 44 from rfl]
  omega

/-- The RIFF chunk size field. -/
theorem pcmToWav_riffSize (pcm : List Nat) (h : pcm.length + 36 < 4294967296) :
    readU32 (pcmToWav pcm 24000) 4 = 36 + pcm.length := by
  have h4 : readU32 (wavHeader pcm.length ++ pcm) 4
      = (36 + pcm.length) % 256 + 256 * ((36 + pcm.length) / 256 % 256)
        + 65536 * ((36 + pcm.length) / 65536 % 256)
        + 16777216 * ((36 + pcm.length) / 16777216 % 256) := rfl
  rw [pcmToWav_flat, h4]
  omega

/-- The format tag field. -/
theorem pcmToWav_fmtTag (pcm : List Nat) : readU16 (pcmToWav pcm 24000) 20 = 1 := by
  rw [pcmToWav_flat]; rfl

/-- The channel count field. -/
theorem pcmToWav_channels (pcm : List Nat) : readU16 (pcmToWav pcm 24000) 22 = 1 := by
  rw [pcmToWav_flat]; rfl

/-- The sample rate field. -/
theorem pcmToWav_rate (pcm : List Nat) : readU32 (pcmToWav pcm 24000) 24 = 24000 := by
  have hd : readU32 (wavHeader pcm.length ++ pcm) 24
      = 192 + 256 * 93 + 65536 * 0 + 16777216 * 0 := rfl
  rw [pcmToWav_flat, hd]

/-- The byte rate field. -/
theorem pcmToWav_byteRate (pcm : List Nat) :
    readU32 (pcmToWav pcm 24000) 28 = 24000 * 1 * 2 := by
  have hd : readU32 (wavHeader pcm.length ++ pcm) 28
      = 128 + 256 * 187 + 65536 * 0 + 16777216 * 0 := rfl
  rw [pcmToWav_flat, hd]

/-- The block alignment field. -/
theorem pcmToWav_blockAlign (pcm : List Nat) :
    readU16 (pcmToWav pcm 24000) 32 = 1 * 2 := by
  rw [pcmToWav_flat]; rfl

/-- The bits-per-sample field. -/
theorem pcmToWav_bits (pcm : List Nat) : readU16 (pcmToWav pcm 24000) 34 = 16 := by
  rw [pcmToWav_flat]; rfl

/-- The data-chunk length field. -/
theorem pcmToWav_dataLen (pcm : List Nat) (h : pcm.length + 36 < 4294967296) :
    readU32 (pcmToWav pcm 24000) 40 = pcm.length := by
  have h40 : readU32 (wavHeader pcm.length ++ pcm) 40
      = pcm.length % 256 + 256 * (pcm.length / 256 % 256)
        + 65536 * (pcm.length / 65536 % 256)
        + 16777216 * (pcm.length / 16777216 % 256) := rfl
  rw [pcmToWav_flat, h40]
  omega

/-- The header occupies the first 44 bytes. -/
theorem pcmToWav_head (pcm : List Nat) :
    (pcmToWav pcm 24000).take 44 = wavHeader pcm.length := by
  rw [pcmToWav_flat]; rfl

/-- The PCM bytes follow the header unchanged. -/
theorem pcmToWav_tail (pcm : List Nat) : (pcmToWav pcm 24000).drop 44 = pcm := by
  rw [pcmToWav_flat]; rfl

/-- C1: for every PCM byte sequence of length L (with L + 36 below the
32-bit field bound inherent to the RIFF format), `pcmToWav` at 24000 Hz
returns a buffer of total length L + 44 whose first 44 bytes form a
little-endian RIFF/WAVE header — RIFF chunk size 36 + L at offset 4, format
tag 1 at offset 20, channel count 1 at offset 22, sample rate 24000 at
offset 24, byte rate 24000·1·2 at offset 28, block alignment 1·2 at offset
32, bits-per-sample 16 at offset 34, data-chunk length exactly L at offset
40 — followed immediately by the input PCM bytes unchanged; each field is
independently recoverable from the byte layout. -/
theorem pcmToWav_header_spec (pcm : List Nat) (h : pcm.length + 36 < 4294967296) :
    (pcmToWav pcm 24000).length = pcm.length + 44 ∧
    readU32 (pcmToWav pcm 24000) 4 = 36 + pcm.length ∧
    readU16 (pcmToWav pcm 24000) 20 = 1 ∧
    readU16 (pcmToWav pcm 24000) 22 = 1 ∧
    readU32 (pcmToWav pcm 24000) 24 = 24000 ∧
    readU32 (pcmToWav pcm 24000) 28 = 24000 * 1 * 2 ∧
    readU16 (pcmToWav pcm 24000) 32 = 1 * 2 ∧
    readU16 (pcmToWav pcm 24000) 34 = 16 ∧
    readU32 (pcmToWav pcm 24000) 40 = pcm.length ∧
    (pcmToWav pcm 24000).take 44 = wavHeader pcm.length ∧
    (pcmToWav pcm 24000).drop 44 = pcm :=
  ⟨pcmToWav_len pcm, pcmToWav_riffSize pcm h, pcmToWav_fmtTag pcm,
   pcmToWav_channels pcm, pcmToWav_rate pcm, pcmToWav_byteRate pcm,
   pcmToWav_blockAlign pcm, pcmToWav_bits pcm, pcmToWav_dataLen pcm h,
   pcmToWav_head pcm, pcmToWav_tail pcm⟩

/-- C1 witness: the header facts evaluated at the one-byte input `[7]`. -/
theorem pcmToWav_header_spec_witness :
    [7].length + 36 < 4294967296 ∧ (pcmToWav [7] 24000).length = [7].length + 44 :=
  ⟨by decide, (pcmToWav_header_spec [7] (by decide)).1⟩

/-- C2: the content request has exactly one of two shapes, selected by
whether the trimmed input starts with `http`: in retrieval mode the tool
flag is set and both the schema and the JSON MIME type are omitted; outside
retrieval mode both are set and the tool flag is omitted.  The schema
declaration and the tool flag are never both active and never both
inactive. -/
theorem contentRequest_mutual_exclusion (input : String) :
    (((contentRequest input).tools = true
        ∧ (contentRequest input).responseSchema = none
        ∧ (contentRequest input).responseMimeType = none)
      ∨ ((contentRequest input).tools = false
        ∧ (contentRequest input).responseSchema = some schemaRequired
        ∧ (contentRequest input).responseMimeType = some "application/json"))
    ∧ ((contentRequest input).tools = isUrlInput input)
    ∧ ((contentRequest input).responseSchema.isSome = !(contentRequest input).tools)
    ∧ ((contentRequest input).responseMimeType.isSome = !(contentRequest input).tools) := by
  by_cases h : isUrlInput input = true
  · simp [contentRequest, h]
  · have h' : isUrlInput input = false := by
      cases hx : isUrlInput input
      · rfl
      · exact absurd hx h
    simp [contentRequest, h']

/-- C3: with an empty API key, both `processContent` and the orchestrator
`handleProcess` fail immediately with the missing-key message: zero network
calls, no article produced, history unchanged. -/
theorem missingKey_failfast (input : String) (config : ReadingConfig)
    (net : GenRequest → NetResult) (hist : List Article) (tts : String → TtsResult)
    (nowId nowDate : String) :
    processContent input config "" net = (Except.error msgMissingKey, 0) ∧
    handleProcess input config "" hist net tts nowId nowDate =
      { ok := false, history := hist, current := none, viewReader := false
        toasts := [(msgConfigureKey, "info")], settingsOpened := true, netCalls := 0 } :=
  ⟨rfl, rfl⟩

end OmniRead

namespace OmniRead

/-- C4: when the content step succeeds and the speech-synthesis step fails,
`handleProcess` still completes successfully with a full article carrying
all content fields, the id, date and config, but no `audioUrl`; the speech
failure surfaces only as a soft warning toast before the success toast. -/
theorem speech_softfail (input : String) (config : ReadingConfig) (key : String)
    (hist : List Article) (net : GenRequest → NetResult) (tts : String → TtsResult)
    (nowId nowDate : String) (r : ProcessedFields) (n : Nat) (msg : String)
    (hk : key ≠ "")
    (hc : processContent input config key net = (Except.ok r, n))
    (hs : (generateSpeech (narrationOf r) key tts).1 = Except.error msg) :
    handleProcess input config key hist net tts nowId nowDate =
      { ok := true, history := articleOf nowId nowDate config none r :: hist
        current := some (articleOf nowId nowDate config none r), viewReader := true
        toasts := [(msgAudioWarn, "info"), (msgSuccess, "success")]
        settingsOpened := false, netCalls := n + 1 } := by
  unfold handleProcess
  rw [if_neg hk, hc]
  dsimp only
  rw [hs]
  dsimp only
  rfl

/-- C4 witness: a concrete run with a successful content call and a failing
speech call. -/
theorem speech_softfail_witness :
    handleProcess "http://a" ⟨.FRENCH, .NEUTRAL, .FULL⟩ "k" []
      (fun _ => NetResult.ok (some "\x7b\x7d")) (fun _ => TtsResult.err ⟨"boom", none⟩)
      "id1" "01/01/2024" =
      { ok := true
        history := [articleOf "id1" "01/01/2024" ⟨.FRENCH, .NEUTRAL, .FULL⟩ none
          ⟨none, none, none, none, none, some "http://a", "FR"⟩]
        current := some (articleOf "id1" "01/01/2024" ⟨.FRENCH, .NEUTRAL, .FULL⟩ none
          ⟨none, none, none, none, none, some "http://a", "FR"⟩)
        viewReader := true
        toasts := [(msgAudioWarn, "info"), (msgSuccess, "success")]
        settingsOpened := false, netCalls := 2 } :=
  speech_softfail "http://a" ⟨.FRENCH, .NEUTRAL, .FULL⟩ "k" []
    (fun _ => NetResult.ok (some "\x7b\x7d")) (fun _ => TtsResult.err ⟨"boom", none⟩)
    "id1" "01/01/2024" ⟨none, none, none, none, none, some "http://a", "FR"⟩ 1
    msgGeneric (by decide) rfl rfl

/-- C5 counterexample: in retrieval mode a response of `{}` — valid JSON
with all five required fields absent — does not fail: `processContent`
succeeds and silently carries every schema field as absent, refuting the
claim that absent required fields raise a ParseError. -/
theorem parse_missing_fields_counterexample :
    processContent "http://a" ⟨.FRENCH, .NEUTRAL, .FULL⟩ "k"
      (fun _ => NetResult.ok (some "\x7b\x7d"))
    = (Except.ok ⟨none, none, none, none, none, some "http://a", "FR"⟩, 1) := rfl

/-- C5 (amended): in retrieval mode `processContent` fails if the
fence-stripped response text is not parseable JSON, but the parse throw is
re-routed through `handleGeminiError`, so the surfaced message is the
generic technical-error message — the same message unrecognized network
errors produce, not a distinct one; absent required fields are never
checked (see the counterexample). -/
theorem parse_failure_generic (input : String) (config : ReadingConfig) (key : String)
    (net : GenRequest → NetResult) (txt : String)
    (hk : key ≠ "") (hu : isUrlInput input = true)
    (hn : net (contentRequest input) = NetResult.ok (some txt)) (ht : ¬ txt = "")
    (hp : jsonParse ⟨stripFences txt.data⟩ = none) :
    processContent input config key net = (Except.error msgGeneric, 1) ∧
    handleGeminiError ⟨msgBadFormat, none⟩ = msgGeneric ∧
    handleGeminiError ⟨"connection reset", none⟩ = msgGeneric := by
  refine ⟨?_, rfl, rfl⟩
  unfold processContent
  rw [if_neg hk, hn]
  dsimp only
  simp only [Option.getD_some, ht, hu, reduceIte]
  rw [hp]
  rfl

/-- C5 witness: a concrete retrieval-mode run on the unparseable response
`not json`. -/
theorem parse_failure_generic_witness :
    processContent "http://a" ⟨.FRENCH, .NEUTRAL, .FULL⟩ "k"
      (fun _ => NetResult.ok (some "not json"))
    = (Except.error msgGeneric, 1) :=
  (parse_failure_generic "http://a" ⟨.FRENCH, .NEUTRAL, .FULL⟩ "k"
    (fun _ => NetResult.ok (some "not json")) "not json"
    (by decide) (by decide) rfl (by decide) rfl).1

/-- C6: the normalizer parses a response wrapped in a leading json fence
marker and a trailing bare fence marker to exactly the same result as the
unwrapped response: the stripped strings are equal, hence the parses are. -/
theorem fenced_response_parses_identically (t : List Char) :
    stripFences (fenceJson ++ t ++ fenceTick) = stripFences t ∧
    jsonParse ⟨stripFences (fenceJson ++ t ++ fenceTick)⟩ = jsonParse ⟨stripFences t⟩ := by
  refine ⟨stripFences_wrap t, ?_⟩
  rw [stripFences_wrap t]

end OmniRead

namespace OmniRead

/-- C7 (amended): `generateSpeech` sends exactly the truncated narration:
the input unchanged when it is at most 4000 characters, otherwise its first
4000 characters with the three-character truncation marker appended — so
the text sent is bounded by 4003 characters (not 4000; see the
counterexample). -/
theorem narration_truncation (text key : String) (tts : String → TtsResult)
    (hk : key ≠ "") :
    (generateSpeech text key tts).2 = some (truncateNarration text) ∧
    (truncateNarration text).length ≤ 4003 ∧
    (text.length ≤ 4000 → truncateNarration text = text) ∧
    (4000 < text.length → truncateNarration text = ⟨text.data.take 4000⟩ ++ "...") := by
  have hdl : text.data.length = text.length := rfl
  refine ⟨generateSpeech_sent text key tts hk, ?_, ?_, ?_⟩
  · unfold truncateNarration
    by_cases hl : text.length > 4000
    · rw [if_pos hl, String.length_append, strLength_mk, List.length_take, hdl,
        show ("..." : String).length = 3 from rfl]
      omega
    · rw [if_neg hl]
      omega
  · intro h
    unfold truncateNarration
    rw [if_neg (by omega)]
  · intro h
    unfold truncateNarration
    rw [if_pos (by omega)]

/-- C7 witness: the sent text on a short input and a concrete key. -/
theorem narration_truncation_witness :
    (generateSpeech "bonjour" "k" (fun _ => TtsResult.err ⟨"boom", none⟩)).2
      = some (truncateNarration "bonjour") :=
  (narration_truncation "bonjour" "k" (fun _ => TtsResult.err ⟨"boom", none⟩)
    (by decide)).1

/-- C7 counterexample: on a 4001-character narration the text sent to the
speech capability has length 4003, which exceeds the claimed 4000-character
bound. -/
theorem narration_bound_counterexample :
    (generateSpeech (String.mk (List.replicate 4001 'a')) "k"
        (fun _ => TtsResult.err ⟨"boom", none⟩)).2.map String.length = some 4003
    ∧ 4000 < 4003 := by
  constructor
  · rw [generateSpeech_sent _ _ _ (by decide)]
    show some ((truncateNarration (String.mk (List.replicate 4001 'a'))).length)
      = some 4003
    have hlen : (String.mk (List.replicate 4001 'a')).length = 4001 := by
      rw [strLength_mk, List.length_replicate]
    have htr : truncateNarration (String.mk (List.replicate 4001 'a'))
        = ⟨(List.replicate 4001 'a').take 4000⟩ ++ "..." := by
      unfold truncateNarration
      rw [if_pos (by rw [hlen]; omega)]
    rw [htr, String.length_append, strLength_mk, List.length_take,
      List.length_replicate]
    rfl
  · omega

/-- C8: the language-code derivation is a total deterministic function of
`targetLanguage` with exactly six outputs — FRENCH→FR, ENGLISH→EN,
SPANISH→ES, GERMAN→DE, ITALIAN→IT, JAPANESE→JP — and every successful
`processContent` run carries exactly the code derived from the target
language of the configuration. -/
theorem languageCode_mapping :
    deriveLanguageCode .FRENCH = "FR" ∧ deriveLanguageCode .ENGLISH = "EN" ∧
    deriveLanguageCode .SPANISH = "ES" ∧ deriveLanguageCode .GERMAN = "DE" ∧
    deriveLanguageCode .ITALIAN = "IT" ∧ deriveLanguageCode .JAPANESE = "JP" ∧
    (∀ l : Language, deriveLanguageCode l = "FR" ∨ deriveLanguageCode l = "EN"
      ∨ deriveLanguageCode l = "ES" ∨ deriveLanguageCode l = "DE"
      ∨ deriveLanguageCode l = "IT" ∨ deriveLanguageCode l = "JP") ∧
    (∀ (input : String) (config : ReadingConfig) (key : String)
        (net : GenRequest → NetResult) (r : ProcessedFields) (n : Nat),
      processContent input config key net = (Except.ok r, n) →
      r.languageCode = deriveLanguageCode config.targetLanguage) := by
  refine ⟨rfl, rfl, rfl, rfl, rfl, rfl, ?_, ?_⟩
  · intro l
    cases l <;> decide
  · intro input config key net r n h
    by_cases hk : key = ""
    · subst hk
      rw [show processContent input config "" net = (Except.error msgMissingKey, 0)
        from rfl] at h
      simp at h
    · cases hnet : net (contentRequest input) with
      | err e =>
        have heq : processContent input config key net
            = (Except.error (handleGeminiError e), 1) := by
          unfold processContent
          rw [if_neg hk, hnet]
        rw [heq] at h
        simp at h
      | ok t =>
        by_cases ht : t.getD "" = ""
        · have heq : processContent input config key net
              = (Except.error (handleGeminiError ⟨msgNoResponse, none⟩), 1) := by
            unfold processContent
            rw [if_neg hk, hnet]
            dsimp only
            rw [if_pos ht]
          rw [heq] at h
          simp at h
        · cases hj : jsonParse (if isUrlInput input
              then (⟨stripFences (t.getD "").data⟩ : String) else t.getD "") with
          | none =>
            have heq : processContent input config key net
                = (Except.error (handleGeminiError ⟨msgBadFormat, none⟩), 1) := by
              unfold processContent
              rw [if_neg hk, hnet]
              dsimp only
              rw [if_neg ht]
              rw [hj]
            rw [heq] at h
            simp at h
          | some data =>
            have heq : processContent input config key net
                = (Except.ok
                    { title := jget data "title"
                      summaryQuote := jget data "summaryQuote"
                      content := jget data "content"
                      readingTimeMinutes := jget data "readingTimeMinutes"
                      sourceName := jget data "sourceName"
                      originalUrl := if isUrlInput input then some input else none
                      languageCode := deriveLanguageCode config.targetLanguage }, 1) := by
              unfold processContent
              rw [if_neg hk, hnet]
              dsimp only
              rw [if_neg ht]
              rw [hj]
            rw [heq] at h
            simp only [Prod.mk.injEq, Except.ok.injEq] at h
            obtain ⟨h1, -⟩ := h
            rw [← h1]

/-- C8 witness: a successful concrete run carries the derived code. -/
theorem languageCode_mapping_witness :
    (⟨none, none, none, none, none, some "http://a", "FR"⟩ : ProcessedFields).languageCode
      = deriveLanguageCode
        (⟨Language.FRENCH, Tone.NEUTRAL, Mode.FULL⟩ : ReadingConfig).targetLanguage :=
  languageCode_mapping.2.2.2.2.2.2.2 "http://a" ⟨.FRENCH, .NEUTRAL, .FULL⟩ "k"
    (fun _ => NetResult.ok (some "\x7b\x7d"))
    ⟨none, none, none, none, none, some "http://a", "FR"⟩ 1 rfl

/-- C9: serializing the history drops exactly the `audioUrl` field of each
record, and deserializing recovers every other field of every article
exactly (round-trip identity modulo `audioUrl`). -/
theorem history_roundtrip (l : List Article) :
    decodeHistory (encodeHistory l) = some (l.map dropAudio) := by
  show some ((l.map (fun a => encodeArticle (dropAudio a))).map decodeArticle)
    = some (l.map dropAudio)
  congr 1
  rw [List.map_map]
  apply List.map_congr_left
  intro a _
  exact decodeArticle_encodeArticle (dropAudio a) rfl

/-- C10: retrieval-mode fence stripping is global, not positional: no
occurrence of a bare or json-tagged fence marker survives anywhere in the
stripped text — in particular triple-backtick sequences inside JSON string
values are deleted, as the concrete conjunct shows: the parsed `content`
field loses its embedded fence. -/
theorem fence_stripping_global :
    (∀ s : List Char, hasSeq fenceTick (stripFences s) = false
      ∧ hasSeq fenceJson (stripFences s) = false) ∧
    jsonParse ⟨stripFences "\x7b\"content\":\"a```b\"\x7d".data⟩
      = some (.obj [("content", .str "ab")]) :=
  ⟨fun s => ⟨stripFences_no_tick s, stripFences_no_json s⟩, rfl⟩

end OmniRead
